import Mathlib

/-!
Verification development for the agenda extraction-and-archival pipeline
(src/Code.js, src/Constants.js).  The spreadsheet/presentation platform is
modelled as a plain tabular store: a sheet is a list of rows of cells, a
written string is read back verbatim, and the platform's date parser is an
abstract parameter.  JavaScript numbers used for shape geometry are modelled
as rationals; JS strings as Lean strings (character lists).
-/

/-! ## Decimal rendering of numbers (JS `String(n)` for integral numbers)

`natDigitsAux` is fuel-indexed structural recursion so that concrete values
reduce inside the kernel; `natDec n` uses fuel `n + 1`, which is always
enough since the recursion divides by 10 each step. -/

def natDigitsAux : Nat → Nat → List Char
  | 0, _ => []
  | fuel + 1, n =>
    if n < 10 then [Nat.digitChar n]
    else natDigitsAux fuel (n / 10) ++ [Nat.digitChar (n % 10)]

/-- Decimal rendering of a natural number, as JS `String(n)` renders an
integral non-negative number. -/
def natDec (n : Nat) : String := String.mk (natDigitsAux (n + 1) n)

/-- Decimal rendering of an integer, as JS `String(n)` renders an integral
number (a leading minus sign for negative values). -/
def intDec (i : Int) : String :=
  if i < 0 then "-" ++ natDec i.natAbs else natDec i.toNat

/-- JS `s.padStart(2, '0')`: prepend zeros until the length is at least 2. -/
def padStart2 (s : String) : String :=
  if s.data.length = 0 then "00"
  else if s.data.length = 1 then "0" ++ s
  else s

/-! ## Character-list string helpers (JS `includes`, `trim`, `replace`) -/

/-- Core of JS `String.prototype.includes`: does `pat` occur in the list? -/
def includesAux (pat : List Char) : List Char → Bool
  | [] => pat.isEmpty
  | c :: rest => pat.isPrefixOf (c :: rest) || includesAux pat rest

/-- JS `s.includes(pat)`. -/
def jsIncludes (s pat : String) : Bool := includesAux pat.data s.data

/-- JS `String.prototype.trim` on a character list: drop leading and trailing
whitespace. -/
def trimList (l : List Char) : List Char :=
  ((l.dropWhile Char.isWhitespace).reverse.dropWhile Char.isWhitespace).reverse

/-- JS `s.trim()` (whitespace modelled by `Char.isWhitespace`). -/
def jsTrim (s : String) : String := String.mk (trimList s.data)

/-- JS `s.replace(/"/g, '""')` on a character list: double every quote. -/
def escapeQuotesList : List Char → List Char
  | [] => []
  | c :: rest =>
    if c = '"' then '"' :: '"' :: escapeQuotesList rest
    else c :: escapeQuotesList rest

/-- JS `s.replace(/"/g, '""')`. -/
def escapeQuotes (s : String) : String := String.mk (escapeQuotesList s.data)

/-- JS `s.replace(/[^a-zA-Z0-9]/g, '')`: keep only ASCII letters and digits
(`Char.isAlphanum` is exactly `[a-zA-Z0-9]`). -/
def cleanAlnum (s : String) : String := String.mk (s.data.filter Char.isAlphanum)

/-! ## The `^\d{4}-\d{2}-\d{2}$` date-key pattern -/

/-- Match of `^(\d{4})-(\d{2})-(\d{2})$` (src/Code.js line 1443 and line 1403):
the year, month and day capture groups, or `none` when the string does not
match. -/
def isoParts (s : String) : Option (String × String × String) :=
  match s.data with
  | [y1, y2, y3, y4, h1, m1, m2, h2, d1, d2] =>
    if y1.isDigit && y2.isDigit && y3.isDigit && y4.isDigit && h1 = '-' &&
       m1.isDigit && m2.isDigit && h2 = '-' && d1.isDigit && d2.isDigit then
      some (String.mk [y1, y2, y3, y4], String.mk [m1, m2], String.mk [d1, d2])
    else none
  | _ => none

/-- Test of `^\d{4}-\d{2}-\d{2}$` (src/Code.js line 1403). -/
def isIsoDateFormat (s : String) : Bool := (isoParts s).isSome

/-! ## JS values and dates

A JS `Date` is modelled by its local calendar getters: `getFullYear()`,
`getMonth() + 1` and `getDate()` (the fields the code reads).  Invalid dates
(`NaN` timestamps) are not represented; the generic platform parsers return
`none` for them instead.  A cell value read from the store is a `JsVal`:
a string, a number, a date object, or anything else (`undefined`, objects),
which the date normalizer maps to `null`. -/

structure JsDate where
  year : Int
  month : Int
  day : Int
deriving DecidableEq

inductive JsVal where
  | str (s : String)
  | num (n : Int)
  | date (d : JsDate)
  | other
deriving DecidableEq

/-- The platform's date construction from strings and numbers (`new
Date(string)`, `new Date(number)`), which ECMA-262 leaves largely
implementation-defined: modelled as an abstract parameter.  `none` models an
invalid date (`NaN` timestamp). -/
structure JsDateApi where
  parseStr : String → Option JsDate
  fromMs : Int → Option JsDate

/-- Format block of src/Code.js lines 1421-1424: `${year}-${month}-${day}`
with month and day zero-padded to two digits. -/
def formatJsDate (d : JsDate) : String :=
  intDec d.year ++ "-" ++ padStart2 (intDec d.month) ++ "-" ++ padStart2 (intDec d.day)

/-- Shallow embedding of `normalizeDateToString` (src/Code.js lines
1392-1430).  `none` is the function's `null`.  Date inputs are the valid
dates `JsDate` represents, so the `isNaN` guard is folded into the abstract
parsers. -/
def normalizeDateToString (api : JsDateApi) (dateValue : JsVal) : Option String :=
  match dateValue with
  | JsVal.date d => some (formatJsDate d)
  | JsVal.str s =>
    if jsIncludes s "/" then (api.parseStr s).map formatJsDate
    else if isIsoDateFormat s then some s
    else (api.parseStr s).map formatJsDate
  | JsVal.num n => (api.fromMs n).map formatJsDate
  | JsVal.other => none

/-! ## Geometry: target boxes and observed shapes (src/Constants.js) -/

structure Box where
  x : ℚ
  y : ℚ
  width : ℚ
  height : ℚ

structure DayBoxes where
  top : Box
  middle : Box
  bottom : Box

/-- Observed geometry of a shape: `getLeft()`, `getTop()`, `getWidth()`,
`getHeight()`. -/
structure ShapeGeom where
  left : ℚ
  top : ℚ
  width : ℚ
  height : ℚ

/-- Shallow embedding of the `matchesBox` closure (src/Code.js lines
1063-1080); the debug logging has no effect on the result. -/
def matchesBox (shape : ShapeGeom) (targetBox : Box) (tolerance : ℚ) : Bool :=
  let xDiff := |shape.left - targetBox.x|
  let yDiff := |shape.top - targetBox.y|
  let wDiff := |shape.width - targetBox.width|
  let hDiff := |shape.height - targetBox.height|
  decide (xDiff < tolerance) && decide (yDiff < tolerance) &&
    decide (wDiff < tolerance) && decide (hDiff < tolerance)

/-- CONSTANTS.TOLERANCE (src/Constants.js line 38). -/
def TOLERANCE : ℚ := 5

/-- CONSTANTS.BOX_COORDINATES, weekday entries (src/Constants.js lines 72-99). -/
def mondayBoxes : DayBoxes :=
  { top := { x := 43.50, y := 124.70, width := 153.17, height := 38.69 }
    middle := { x := 43.50, y := 194.49, width := 153.17, height := 104.88 }
    bottom := { x := 42.71, y := 329.03, width := 153.17, height := 51.02 } }

def tuesdayBoxes : DayBoxes :=
  { top := { x := 212.61, y := 124.70, width := 157.58, height := 38.69 }
    middle := { x := 212.61, y := 194.49, width := 157.58, height := 104.88 }
    bottom := { x := 211.82, y := 329.03, width := 157.58, height := 51.02 } }

def wednesdayBoxes : DayBoxes :=
  { top := { x := 383.29, y := 124.70, width := 157.58, height := 38.69 }
    middle := { x := 383.29, y := 194.49, width := 157.58, height := 104.88 }
    bottom := { x := 382.50, y := 329.03, width := 157.58, height := 51.02 } }

def thursdayBoxes : DayBoxes :=
  { top := { x := 553.98, y := 124.70, width := 157.58, height := 39.66 }
    middle := { x := 553.98, y := 194.49, width := 157.58, height := 104.88 }
    bottom := { x := 553.19, y := 329.03, width := 157.58, height := 51.02 } }

def fridayBoxes : DayBoxes :=
  { top := { x := 727.50, y := 124.70, width := 161.06, height := 39.66 }
    middle := { x := 727.50, y := 194.49, width := 161.06, height := 104.88 }
    bottom := { x := 726.71, y := 329.03, width := 161.06, height := 51.02 } }

/-- CONSTANTS.BOX_COORDINATES.Upcoming (src/Constants.js line 98). -/
def upcomingBox : Box := { x := 148.66, y := 392.40, width := 709.13, height := 31.23 }

/-- The weekday entries of BOX_COORDINATES, looked up per day name; the
`Upcoming` key holds a bare box, not a DayBoxes record, so it maps to `none`
here. -/
def boxCoordinatesDay (day : String) : Option DayBoxes :=
  if day = "Monday" then some mondayBoxes
  else if day = "Tuesday" then some tuesdayBoxes
  else if day = "Wednesday" then some wednesdayBoxes
  else if day = "Thursday" then some thursdayBoxes
  else if day = "Friday" then some fridayBoxes
  else none

/-- `BOX_COORDINATES.hasOwnProperty(day)` (src/Code.js line 981): the keys
are the five weekdays and the literal key `Upcoming`. -/
def boxCoordinatesHasDay (day : String) : Bool :=
  day == "Monday" || day == "Tuesday" || day == "Wednesday" ||
    day == "Thursday" || day == "Friday" || day == "Upcoming"

/-! ## Rich text runs and `extractTextWithAllLinks` (src/Code.js 883-917)

A shape's text range is modelled by its ordered list of styled runs; the
range's `asString()` is the concatenation of the runs' texts, and
`getTextStyle().getLink()` is the run's optional URL. -/

structure TextRun where
  text : String
  url : Option String

/-- The plain-text branch of the run loop: push the trimmed text when it is
non-empty. -/
def plainPart (run : TextRun) : Option String :=
  let plainText := jsTrim run.text
  if plainText ≠ "" then some plainText else none

/-- One iteration of the run loop of `extractTextWithAllLinks`: `none` when
the run is skipped, otherwise the pushed segment. -/
def runSegment (run : TextRun) : Option String :=
  if jsTrim run.text = "" then none
  else
    match run.url with
    | some url =>
      if url ≠ "" then
        some ("=HYPERLINK(\"" ++ url ++ "\", \"" ++ escapeQuotes (jsTrim run.text) ++ "\")")
      else plainPart run
    | none => plainPart run

/-- Shallow embedding of `extractTextWithAllLinks` (src/Code.js lines
883-917). -/
def extractTextWithAllLinks (runs : List TextRun) : String :=
  let fullText := jsTrim (String.join (runs.map TextRun.text))
  if fullText = "" then "N/A"
  else
    let textParts := runs.filterMap runSegment
    if textParts = [] then fullText
    else String.intercalate "\n" textParts

/-! ## Monday-of-week computation (src/Code.js 870-875)

Dates are modelled as absolute day numbers (days since the JS epoch
1970-01-01, a Thursday, so `getDay` is `(d + 4) mod 7` with Sunday = 0).
`Date.prototype.setDate(n)` sets the day-of-month to `n`, normalizing
out-of-range values by offsetting from the start of the month: on absolute
days that is exactly `today - getDate() + n`, for every `n`. -/

def jsGetDay (d : Int) : Int := (d + 4) % 7

def jsSetDate (today : Int) (dayOfMonth : Int) (n : Int) : Int :=
  today - dayOfMonth + n

/-- Shallow embedding of `getMondayOfCurrentWeek` (src/Code.js lines
870-875); `dayOfMonth` is `today.getDate()`. -/
def getMondayOfCurrentWeek (today : Int) (dayOfMonth : Int) : Int :=
  let day := jsGetDay today
  let diff := dayOfMonth - day + (if day = 0 then -6 else 1)
  jsSetDate today dayOfMonth diff

/-! ## Slides, shapes and the extraction pipeline (src/Code.js 938-1141)

A slide is its ordered list of page elements; `getShapes()` is the shapes
among them in order.  A shape carries its geometry and its text runs;
`getText().asString()` is the concatenation of the run texts, and
`getText().isEmpty()` holds when that concatenation has no characters. -/

structure SlideShape where
  geom : ShapeGeom
  runs : List TextRun

inductive PageElement where
  | shape (sh : SlideShape)
  | nonShape

def Slide : Type := List PageElement

def Presentation : Type := List Slide

/-- `shape.getText().asString()`. -/
def shapeRawText (sh : SlideShape) : String :=
  String.join (sh.runs.map TextRun.text)

/-- `slide.getShapes()`: the shape elements of the slide, in order. -/
def getShapes (slide : Slide) : List SlideShape :=
  slide.filterMap (fun e =>
    match e with
    | PageElement.shape sh => some sh
    | PageElement.nonShape => none)

/-- JS `s.toUpperCase()` (ASCII model, via `Char.toUpper`). -/
def jsToUpper (s : String) : String := String.mk (s.data.map Char.toUpper)

/-- The week-label scan over one slide (src/Code.js lines 1034-1047): some
shape's uppercased text contains the English or the Spanish label. -/
def slideHasWeekText (weekOfText semanaDeText : String) (slide : Slide) : Bool :=
  (getShapes slide).any (fun sh =>
    let shapeText := jsToUpper (shapeRawText sh)
    jsIncludes shapeText weekOfText || jsIncludes shapeText semanaDeText)

/-- The slide loop of src/Code.js lines 1032-1051: the first slide carrying
either week label, scan order = presentation order. -/
def findAgendaSlide (weekOfText semanaDeText : String) (slides : Presentation) : Option Slide :=
  slides.find? (slideHasWeekText weekOfText semanaDeText)

/-- One iteration of the page-element classification loop (src/Code.js lines
1082-1104): the running `(top, middle, bottom, upcoming)` cell texts, updated
by the first matching box of the if/else chain. -/
def classifyStep (currentDayBoxes : DayBoxes) (upBox : Box)
    (acc : String × String × String × String) (element : PageElement) :
    String × String × String × String :=
  match element with
  | PageElement.nonShape => acc
  | PageElement.shape sh =>
    if shapeRawText sh = "" then acc
    else
      let cellValue := extractTextWithAllLinks sh.runs
      if matchesBox sh.geom currentDayBoxes.top TOLERANCE then
        (cellValue, acc.2.1, acc.2.2.1, acc.2.2.2)
      else if matchesBox sh.geom currentDayBoxes.middle TOLERANCE then
        (acc.1, cellValue, acc.2.2.1, acc.2.2.2)
      else if matchesBox sh.geom currentDayBoxes.bottom TOLERANCE then
        (acc.1, acc.2.1, cellValue, acc.2.2.2)
      else if matchesBox sh.geom upBox TOLERANCE then
        (acc.1, acc.2.1, acc.2.2.1, cellValue)
      else acc

/-- The classification fold over a slide's page elements, starting from the
four `N/A` defaults (src/Code.js lines 1060, 1082-1104). -/
def classifyShapes (currentDayBoxes : DayBoxes) (upBox : Box) (slide : Slide) :
    String × String × String × String :=
  slide.foldl (classifyStep currentDayBoxes upBox) ("N/A", "N/A", "N/A", "N/A")

/-- One config row (src/Code.js line 1017), already stringified by
`row.map(String)`. -/
structure SourceRecord where
  presentationId : String
  teacherLastName : String
  className : String
  gradeLevel : String

/-- The slide-not-found message of src/Code.js line 1054. -/
def slideNotFoundMsg (weekOfText semanaDeText : String) : String :=
  "Slide not found with either \"" ++ weekOfText ++ "\" or \"" ++ semanaDeText ++ "\"."

/-- The try block of the per-record loop (src/Code.js lines 1024-1119):
open the presentation, require slides, locate the week's slide, classify its
shapes; the thrown message on failure.  `currentDayBoxes = none` models
`BOX_COORDINATES[day]` holding no `top/middle/bottom` record (the `Upcoming`
key), where the property access throws a TypeError (message abstracted). -/
def processRecordE (openPres : String → Except String Presentation)
    (weekOfText semanaDeText : String) (currentDayBoxes : Option DayBoxes)
    (upBox : Box) (dayOfWeek : String) (r : SourceRecord) :
    Except String (List String) :=
  match openPres (jsTrim r.presentationId) with
  | Except.error m => Except.error m
  | Except.ok presentation =>
    if presentation.isEmpty then Except.error "Presentation has no slides."
    else
      match findAgendaSlide weekOfText semanaDeText presentation with
      | none => Except.error (slideNotFoundMsg weekOfText semanaDeText)
      | some agendaSlide =>
        match currentDayBoxes with
        | none => Except.error "TypeError: Cannot read properties of undefined"
        | some boxes =>
          let cells := classifyShapes boxes upBox agendaSlide
          Except.ok [jsTrim r.teacherLastName, jsTrim r.className, dayOfWeek,
                     cells.1, cells.2.1, cells.2.2.1, cells.2.2.2, jsTrim r.gradeLevel]

/-- One iteration of the config-row forEach (src/Code.js lines 1016-1128):
`none` when the row is skipped (empty presentation id), otherwise the row
appended to the data sheet — the try block's row on success, the catch
block's ERROR row (line 1123-1126) on failure. -/
def processRecord (openPres : String → Except String Presentation)
    (weekOfText semanaDeText : String) (currentDayBoxes : Option DayBoxes)
    (upBox : Box) (dayOfWeek : String) (r : SourceRecord) : Option (List String) :=
  if jsTrim r.presentationId = "" then none
  else
    some (match processRecordE openPres weekOfText semanaDeText currentDayBoxes upBox dayOfWeek r with
      | Except.ok row => row
      | Except.error m =>
        [jsTrim r.teacherLastName, jsTrim r.className, dayOfWeek,
         "ERROR", "ERROR", "ERROR", "ERROR", jsTrim r.gradeLevel, "Error: " ++ m])

/-! ## The tabular store

A cell holds the value `getValues()` reads and the formula text
`getFormulas()` reads (empty string = no formula).  `appendRow` of strings
stores them verbatim; a written string starting with `=` becomes a formula
cell (its computed display value is not modelled — no claim reads it; the
formula text is kept as the value). -/

structure Cell where
  value : JsVal
  formula : String
deriving DecidableEq

def strToCell (s : String) : Cell :=
  { value := JsVal.str s, formula := if s.data.head? = some '=' then s else "" }

def appendRowCells (xs : List String) : List Cell := xs.map strToCell

/-- The header row the extraction run writes (src/Code.js lines 974-977). -/
def extractHeaderRow : List Cell :=
  appendRowCells ["Teacher Last Name", "Class Name", "Day of Week", "Turn In",
                  "Activities", "Practice Work", "Upcoming", "Grade Level"]

/-- The forEach over config rows (src/Code.js lines 1016-1128) as a fold
appending each produced row to the data sheet. -/
def extractLoop (openPres : String → Except String Presentation)
    (weekOfText semanaDeText : String) (currentDayBoxes : Option DayBoxes)
    (upBox : Box) (dayOfWeek : String) :
    List SourceRecord → List (List Cell) → List (List Cell)
  | [], dataSheet => dataSheet
  | r :: rest, dataSheet =>
    extractLoop openPres weekOfText semanaDeText currentDayBoxes upBox dayOfWeek rest
      (match processRecord openPres weekOfText semanaDeText currentDayBoxes upBox dayOfWeek r with
       | none => dataSheet
       | some row => dataSheet ++ [appendRowCells row])

inductive ExtractOutcome where
  | configMissing
  | dataMissing
  | unsupportedDay
  | noConfigRows
  | completed
deriving DecidableEq

/-- The `configValues[0].every(cell => !cell)` emptiness check (src/Code.js
line 1005): all four stringified cells are empty. -/
def rowAllEmpty (r : SourceRecord) : Bool :=
  r.presentationId == "" && r.teacherLastName == "" &&
    r.className == "" && r.gradeLevel == ""

/-- Shallow embedding of `extractTextForCurrentDayAgenda` (src/Code.js lines
938-1141): outcome and the data sheet's new contents.  `formattedMonday` is
the platform-formatted `M/d/yyyy` Monday date (the week labels are built from
it, uppercased, at lines 992-995); `configValues` is `none` when the config
sheet is missing, likewise `dataSheet`.  UI alerts and logging are ignored. -/
def extractTextForCurrentDayAgenda (dayOfWeek : String) (formattedMonday : String)
    (openPres : String → Except String Presentation)
    (configValues : Option (List SourceRecord))
    (dataSheet : Option (List (List Cell))) :
    ExtractOutcome × Option (List (List Cell)) :=
  match configValues with
  | none => (ExtractOutcome.configMissing, dataSheet)
  | some configRows =>
    match dataSheet with
    | none => (ExtractOutcome.dataMissing, none)
    | some _prev =>
      let cleared := [extractHeaderRow]
      if boxCoordinatesHasDay dayOfWeek = false then
        (ExtractOutcome.unsupportedDay, some cleared)
      else
        let weekOfText := jsToUpper ("WEEK OF " ++ formattedMonday)
        let semanaDeText := jsToUpper ("SEMANA DE " ++ formattedMonday)
        let currentDayBoxes := boxCoordinatesDay dayOfWeek
        match configRows with
        | [] => (ExtractOutcome.noConfigRows, some cleared)
        | first :: _ =>
          if rowAllEmpty first then (ExtractOutcome.noConfigRows, some cleared)
          else
            (ExtractOutcome.completed,
             some (extractLoop openPres weekOfText semanaDeText currentDayBoxes
                     upcomingBox dayOfWeek configRows cleared))

/-! ## Daily archival (src/Code.js 1226-1330)

The state passed in is the current-day data sheet and the one monthly
archive partition for "today"'s month (`getOrCreateArchiveSheet` always
resolves to that partition since the whole run uses one `today`); `none`
means the partition does not exist yet. -/

/-- JS strict equality `===` on cell values: strings and numbers compare by
value; `Date` objects compare by reference, and the guard compares cell
values against a freshly built string, so object identity never holds. -/
def jsStrictEq (a b : JsVal) : Bool :=
  match a, b with
  | JsVal.str x, JsVal.str y => x == y
  | JsVal.num x, JsVal.num y => x == y
  | _, _ => false

/-- `getOrCreateArchiveSheet` (src/Code.js lines 1226-1253): the existing
partition, or a fresh one holding only the 9-column header row. -/
def getOrCreateArchiveSheet (archive : Option (List (List Cell))) : List (List Cell) :=
  match archive with
  | some sheet => sheet
  | none =>
    [appendRowCells ["Date", "Teacher Last Name", "Class Name", "Day of Week",
                     "Turn In", "Activities", "Practice Work", "Upcoming", "Grade Level"]]

/-- One entry of an archive row (src/Code.js lines 1314-1320): the formula
text when the cell has one, else the raw value, re-written to the store. -/
def archiveEntryCell (c : Cell) : Cell :=
  if c.formula ≠ "" then strToCell c.formula else { value := c.value, formula := "" }

/-- One appended archive row (src/Code.js lines 1312-1322): the date key
first, then the data row's entries. -/
def archiveRowFor (dateString : String) (row : List Cell) : List Cell :=
  strToCell dateString :: row.map archiveEntryCell

inductive ArchiveOutcome where
  | dataSheetMissing
  | noData
  | skipped
  | archived (rows : Nat)
deriving DecidableEq

/-- One test of the duplicate guard loop (src/Code.js lines 1293-1298):
`archiveValues[i][0] === dateString` for one row (a missing first cell is
`undefined`, never strictly equal to a string). -/
def rowHasDate (dateString : String) (row : List Cell) : Bool :=
  match row.head? with
  | some c => jsStrictEq c.value (JsVal.str dateString)
  | none => false

/-- Shallow embedding of `archiveCurrentDayDataOnly` (src/Code.js lines
1260-1330).  `formatJsDate today` is `normalizeDateToString(today)` on a
valid `Date`.  The guard loop over rows 1.. of the partition compares each
row's first cell value with the date key under `===`. -/
def archiveCurrentDayDataOnly (today : JsDate)
    (dataSheet : Option (List (List Cell)))
    (archive : Option (List (List Cell))) :
    ArchiveOutcome × Option (List (List Cell)) :=
  let dateString := formatJsDate today
  match dataSheet with
  | none => (ArchiveOutcome.dataSheetMissing, archive)
  | some values =>
    if values.length ≤ 1 then (ArchiveOutcome.noData, archive)
    else
      let archiveSheet := getOrCreateArchiveSheet archive
      let alreadyArchived := archiveSheet.tail.any (rowHasDate dateString)
      if alreadyArchived then (ArchiveOutcome.skipped, some archiveSheet)
      else
        (ArchiveOutcome.archived (values.length - 1),
         some (archiveSheet ++ values.tail.map (archiveRowFor dateString)))

/-! ## Read queries over the archive partitions (src/Code.js 1437-1604) -/

structure NamedSheet where
  name : String
  vals : List (List Cell)

/-- JS `s.startsWith(pat)`. -/
def jsStartsWith (s pat : String) : Bool := pat.data.isPrefixOf s.data

/-- JS `Set.prototype.add` on an insertion-ordered list: keep the first
occurrence of each value. -/
def jsSetAdd (acc : List String) (x : String) : List String :=
  if x ∈ acc then acc else acc ++ [x]

/-- JS default `Array.prototype.sort` comparison on strings: lexicographic
by code units, as a Bool relation on character lists. -/
def charListLe : List Char → List Char → Bool
  | [], _ => true
  | _ :: _, [] => false
  | a :: as, b :: bs => if a < b then true else if a = b then charListLe as bs else false

def jsStrLe (a b : String) : Bool := charListLe a.data b.data

/-- The per-sheet inner loop of `getAvailableArchiveDates` (src/Code.js lines
1589-1594): normalize each data row's first cell and add the parseable ones
to the set. -/
def sheetArchiveDates (api : JsDateApi) (sheet : NamedSheet) (acc : List String) : List String :=
  sheet.vals.tail.foldl (fun a row =>
    match row.head? with
    | some c =>
      match normalizeDateToString api c.value with
      | some normalizedDate => jsSetAdd a normalizedDate
      | none => a
    | none => a) acc

/-- Shallow embedding of `getAvailableArchiveDates` (src/Code.js lines
1574-1604): collect normalized dates from every `Archive_`-prefixed sheet,
dedupe via the set, sort ascending. -/
def getAvailableArchiveDates (api : JsDateApi) (sheets : List NamedSheet) : List String :=
  let dates := sheets.foldl (fun acc sheet =>
    if jsStartsWith sheet.name "Archive_" then sheetArchiveDates api sheet acc else acc) []
  dates.mergeSort jsStrLe

inductive QueryResult where
  | payload (rows : List (List (String × JsVal)))
  | error (msg : String)
deriving DecidableEq

/-- The object built for one matching archive row (src/Code.js lines
1491-1500): for each column from 1 on, the header's alphanumeric-cleaned
text keys the formula text if present, else the raw value.  A non-string
header cell makes `headers[j].replace` throw a TypeError (message
abstracted), caught by the enclosing try. -/
def buildObj (headers : List Cell) (row : List Cell) :
    Except String (List (String × JsVal)) :=
  ((List.range headers.length).drop 1).foldlM (fun obj j =>
    match (headers.getD j { value := JsVal.other, formula := "" }).value with
    | JsVal.str h =>
      let cell := row.getD j { value := JsVal.other, formula := "" }
      let entry := if cell.formula ≠ "" then JsVal.str cell.formula else cell.value
      Except.ok (obj ++ [(cleanAlnum h, entry)])
    | _ => Except.error "TypeError: headers[j].replace is not a function") []

/-- The try block of `getArchivedDataForDate` (src/Code.js lines 1441-1505):
the payload rows, or the thrown message. -/
def getArchivedDataForDateAux (api : JsDateApi) (sheets : List NamedSheet)
    (dateString : String) : Except String (List (List (String × JsVal))) :=
  match isoParts dateString with
  | none => Except.error ("Invalid date format. Expected YYYY-MM-DD, got: " ++ dateString)
  | some (year, month, _day) =>
    let archiveSheetName := "Archive_" ++ year ++ "_" ++ month
    match sheets.find? (fun sheet => sheet.name == archiveSheetName) with
    | none => Except.ok []
    | some archiveSheet =>
      let values := archiveSheet.vals
      if values.length ≤ 1 then Except.ok []
      else
        let headers := values.headD []
        let targetDate := normalizeDateToString api (JsVal.str dateString)
        values.tail.foldlM (fun data row =>
          let rowDate := match row.head? with
            | some c => normalizeDateToString api c.value
            | none => none
          if rowDate = targetDate then
            (buildObj headers row).map (fun obj => data ++ [obj])
          else Except.ok data) []

/-- Shallow embedding of `getArchivedDataForDate` (src/Code.js lines
1437-1511): the catch wraps any thrown message into a tagged error result. -/
def getArchivedDataForDate (api : JsDateApi) (sheets : List NamedSheet)
    (dateString : String) : QueryResult :=
  match getArchivedDataForDateAux api sheets dateString with
  | Except.ok data => QueryResult.payload data
  | Except.error m => QueryResult.error ("Failed to fetch archived data: " ++ m)

/-! ## Claim C2: strict tolerance matching -/

/-- C2: for every observed shape geometry, target box and tolerance, the
geometry matcher returns true iff all four absolute differences (x, y,
width, height) are strictly less than the tolerance; a shape whose every
coordinate differs from the target by exactly the tolerance does not match,
and one differing by tolerance minus a positive epsilon everywhere does
match. -/
theorem claim_C2_matchesBox_strict_tolerance (shape : ShapeGeom) (targetBox : Box)
    (tolerance : ℚ) :
    (matchesBox shape targetBox tolerance = true ↔
      (|shape.left - targetBox.x| < tolerance ∧ |shape.top - targetBox.y| < tolerance ∧
       |shape.width - targetBox.width| < tolerance ∧ |shape.height - targetBox.height| < tolerance))
    ∧ (|shape.left - targetBox.x| = tolerance → |shape.top - targetBox.y| = tolerance →
       |shape.width - targetBox.width| = tolerance → |shape.height - targetBox.height| = tolerance →
       matchesBox shape targetBox tolerance = false)
    ∧ (∀ ε : ℚ, 0 < ε →
       |shape.left - targetBox.x| = tolerance - ε → |shape.top - targetBox.y| = tolerance - ε →
       |shape.width - targetBox.width| = tolerance - ε →
       |shape.height - targetBox.height| = tolerance - ε →
       matchesBox shape targetBox tolerance = true) := by
  have hiff : matchesBox shape targetBox tolerance = true ↔
      (|shape.left - targetBox.x| < tolerance ∧ |shape.top - targetBox.y| < tolerance ∧
       |shape.width - targetBox.width| < tolerance ∧
       |shape.height - targetBox.height| < tolerance) := by
    simp [matchesBox, and_assoc]
  refine ⟨hiff, ?_, ?_⟩
  · intro h1 h2 h3 h4
    rcases Bool.eq_false_or_eq_true (matchesBox shape targetBox tolerance) with h | h
    · obtain ⟨a, -, -, -⟩ := hiff.mp h
      rw [h1] at a
      exact absurd a (lt_irrefl tolerance)
    · exact h
  · intro ε hε h1 h2 h3 h4
    exact hiff.mpr ⟨by rw [h1]; linarith, by rw [h2]; linarith,
      by rw [h3]; linarith, by rw [h4]; linarith⟩

/-! ## Claim C6: Monday-of-week computation -/

/-- C6: for every date taken as today (as an absolute day number) and every
day-of-month, the week-start computation yields the Monday on or before that
date (JS weekday 1, at distance at most 6 days); when today is a Sunday it is
the Monday six days earlier; and the result does not depend on the
day-of-month, so non-positive adjusted day-of-month values (early in a
month) roll over correctly. -/
theorem claim_C6_getMondayOfCurrentWeek (today dayOfMonth : Int) :
    jsGetDay (getMondayOfCurrentWeek today dayOfMonth) = 1
    ∧ getMondayOfCurrentWeek today dayOfMonth ≤ today
    ∧ today - getMondayOfCurrentWeek today dayOfMonth < 7
    ∧ (jsGetDay today = 0 → getMondayOfCurrentWeek today dayOfMonth = today - 6)
    ∧ (∀ dom2 : Int, getMondayOfCurrentWeek today dayOfMonth = getMondayOfCurrentWeek today dom2) := by
  simp only [getMondayOfCurrentWeek, jsSetDate, jsGetDay]
  split_ifs with h
  · refine ⟨by omega, by omega, by omega, fun hz => by omega, fun dom2 => by omega⟩
  · refine ⟨by omega, by omega, by omega, fun hz => by omega, fun dom2 => by omega⟩

/-! ## Claim C5: hyperlink-preserving run extraction -/

/-- C5: a run with a non-empty hyperlink URL and non-blank text yields a
segment pairing the URL with the trimmed text, every double quote in the
text doubled by the escape; a run without a URL contributes its trimmed text
verbatim; and the segments are joined with newlines in run order. -/
theorem claim_C5_extractTextWithAllLinks_segments :
    (∀ s : String, (escapeQuotes s).data =
      s.data.flatMap (fun c => if c = '"' then ['"', '"'] else [c]))
    ∧ (∀ run : TextRun, ∀ url : String, run.url = some url → url ≠ "" →
        jsTrim run.text ≠ "" →
        runSegment run =
          some ("=HYPERLINK(\"" ++ url ++ "\", \"" ++ escapeQuotes (jsTrim run.text) ++ "\")"))
    ∧ (∀ run : TextRun, run.url = none ∨ run.url = some "" → jsTrim run.text ≠ "" →
        runSegment run = some (jsTrim run.text))
    ∧ (∀ runs : List TextRun, jsTrim (String.join (runs.map TextRun.text)) ≠ "" →
        runs.filterMap runSegment ≠ [] →
        extractTextWithAllLinks runs = String.intercalate "\n" (runs.filterMap runSegment)) := by
  refine ⟨?_, ?_, ?_, ?_⟩
  · intro s
    show escapeQuotesList s.data = _
    induction s.data with
    | nil => rfl
    | cons c rest ih =>
      by_cases hc : c = '"'
      · simp [escapeQuotesList, hc, ih]
      · simp [escapeQuotesList, hc, ih]
  · intro run url hurl hne htrim
    simp [runSegment, htrim, hurl, hne]
  · intro run hurl htrim
    rcases hurl with h | h
    · simp [runSegment, htrim, plainPart, h]
    · simp [runSegment, htrim, plainPart, h]
  · intro runs hfull hparts
    simp only [extractTextWithAllLinks]
    rw [if_neg hfull, if_neg hparts]

/-! ## Claim C9: later matching shapes overwrite earlier ones -/

/-- Unfolding of the matcher into its four strict comparisons. -/
lemma matchesBox_eq_true_iff (g : ShapeGeom) (b : Box) (t : ℚ) :
    matchesBox g b t = true ↔
      (|g.left - b.x| < t ∧ |g.top - b.y| < t ∧
       |g.width - b.width| < t ∧ |g.height - b.height| < t) := by
  simp [matchesBox, and_assoc]

/-- The texts of the non-empty shapes of a slide that match box `b`, in
page-element order. -/
def matchTexts (b : Box) (slide : List PageElement) : List String :=
  slide.filterMap (fun e =>
    match e with
    | PageElement.shape sh =>
      if shapeRawText sh ≠ "" ∧ matchesBox sh.geom b TOLERANCE = true then
        some (extractTextWithAllLinks sh.runs)
      else none
    | PageElement.nonShape => none)

/-- No shape geometry matches two of the four boxes at once (tolerance 5). -/
def SeparatedBoxes (boxes : DayBoxes) (upBox : Box) : Prop :=
  ∀ g : ShapeGeom,
    (matchesBox g boxes.top TOLERANCE = true →
      matchesBox g boxes.middle TOLERANCE = false ∧
      matchesBox g boxes.bottom TOLERANCE = false ∧
      matchesBox g upBox TOLERANCE = false)
    ∧ (matchesBox g boxes.middle TOLERANCE = true →
      matchesBox g boxes.bottom TOLERANCE = false ∧
      matchesBox g upBox TOLERANCE = false)
    ∧ (matchesBox g boxes.bottom TOLERANCE = true →
      matchesBox g upBox TOLERANCE = false)

/-- Two boxes whose y coordinates are at least two tolerances apart are never
matched by one and the same shape. -/
lemma matchesBox_false_of_gap_y (g : ShapeGeom) (b1 b2 : Box)
    (hgap : 10 ≤ |b1.y - b2.y|) (h1 : matchesBox g b1 TOLERANCE = true) :
    matchesBox g b2 TOLERANCE = false := by
  rcases Bool.eq_false_or_eq_true (matchesBox g b2 TOLERANCE) with h2 | h2
  swap
  · exact h2
  · obtain ⟨-, hy1, -, -⟩ := (matchesBox_eq_true_iff g b1 TOLERANCE).mp h1
    obtain ⟨-, hy2, -, -⟩ := (matchesBox_eq_true_iff g b2 TOLERANCE).mp h2
    have ht : TOLERANCE = (5 : ℚ) := rfl
    rw [ht] at hy1 hy2
    have tri : |b1.y - b2.y| ≤ |b1.y - g.top| + |g.top - b2.y| := abs_sub_le _ _ _
    have c1 : |b1.y - g.top| = |g.top - b1.y| := abs_sub_comm _ _
    linarith

/-- Pairwise y-gaps of at least 10 give full separation. -/
lemma separated_of_gaps (boxes : DayBoxes) (upBox : Box)
    (h1 : 10 ≤ |boxes.top.y - boxes.middle.y|)
    (h2 : 10 ≤ |boxes.top.y - boxes.bottom.y|)
    (h3 : 10 ≤ |boxes.top.y - upBox.y|)
    (h4 : 10 ≤ |boxes.middle.y - boxes.bottom.y|)
    (h5 : 10 ≤ |boxes.middle.y - upBox.y|)
    (h6 : 10 ≤ |boxes.bottom.y - upBox.y|) :
    SeparatedBoxes boxes upBox := by
  intro g
  exact ⟨fun ht => ⟨matchesBox_false_of_gap_y g _ _ h1 ht,
           matchesBox_false_of_gap_y g _ _ h2 ht, matchesBox_false_of_gap_y g _ _ h3 ht⟩,
         fun hm => ⟨matchesBox_false_of_gap_y g _ _ h4 hm,
           matchesBox_false_of_gap_y g _ _ h5 hm⟩,
         fun hb => matchesBox_false_of_gap_y g _ _ h6 hb⟩

/-- The six concrete y-gaps of the configured coordinate table (the y values
are shared by all five weekdays). -/
lemma yGapFacts :
    10 ≤ |(124.70 : ℚ) - 194.49| ∧ 10 ≤ |(124.70 : ℚ) - 329.03| ∧
    10 ≤ |(124.70 : ℚ) - 392.40| ∧ 10 ≤ |(194.49 : ℚ) - 329.03| ∧
    10 ≤ |(194.49 : ℚ) - 392.40| ∧ 10 ≤ |(329.03 : ℚ) - 392.40| := by
  refine ⟨?_, ?_, ?_, ?_, ?_, ?_⟩ <;>
    · rw [abs_sub_comm, abs_of_nonneg (by norm_num)]
      norm_num

/-- Popping the head of a list under `getLast?.getD`: the head becomes the
new default. -/
lemma getLast?_getD_cons {α : Type} (l : List α) :
    ∀ x a : α, ((x :: l).getLast?).getD a = (l.getLast?).getD x := by
  induction l with
  | nil => intro x a; rfl
  | cons y ys ih =>
    intro x a
    rw [List.getLast?_cons_cons, ih y a, ih y x]

/-- The classification fold computes, for each box, the last matching
non-empty shape's extracted text over the elements seen so far (the
accumulator is the default). -/
lemma classifyFold (boxes : DayBoxes) (upBox : Box) (hsep : SeparatedBoxes boxes upBox) :
    ∀ (es : List PageElement) (acc : String × String × String × String),
      es.foldl (classifyStep boxes upBox) acc =
        ((matchTexts boxes.top es).getLast?.getD acc.1,
         (matchTexts boxes.middle es).getLast?.getD acc.2.1,
         (matchTexts boxes.bottom es).getLast?.getD acc.2.2.1,
         (matchTexts upBox es).getLast?.getD acc.2.2.2) := by
  intro es
  induction es with
  | nil => intro acc; simp [matchTexts]
  | cons e rest ih =>
    intro acc
    rw [List.foldl_cons, ih (classifyStep boxes upBox acc e)]
    cases e with
    | nonShape => simp [matchTexts, classifyStep, List.filterMap_cons]
    | shape sh =>
      by_cases htext : shapeRawText sh = ""
      · simp [matchTexts, classifyStep, htext, List.filterMap_cons]
      · rcases hsep sh.geom with ⟨hst, hsm, hsb⟩
        by_cases ht : matchesBox sh.geom boxes.top TOLERANCE = true
        · obtain ⟨hm, hb, hu⟩ := hst ht
          simp [matchTexts, classifyStep, htext, ht, hm, hb, hu,
                getLast?_getD_cons, List.filterMap_cons]
        · by_cases hm : matchesBox sh.geom boxes.middle TOLERANCE = true
          · obtain ⟨hb, hu⟩ := hsm hm
            simp [matchTexts, classifyStep, htext, ht, hm, hb, hu,
                  getLast?_getD_cons, List.filterMap_cons]
          · by_cases hb : matchesBox sh.geom boxes.bottom TOLERANCE = true
            · have hu := hsb hb
              simp [matchTexts, classifyStep, htext, ht, hm, hb, hu,
                    getLast?_getD_cons, List.filterMap_cons]
            · by_cases hu : matchesBox sh.geom upBox TOLERANCE = true
              · simp [matchTexts, classifyStep, htext, ht, hm, hb, hu,
                      getLast?_getD_cons, List.filterMap_cons]
              · simp [matchTexts, classifyStep, htext, ht, hm, hb, hu,
                      List.filterMap_cons]

/-- C9: when several distinct non-empty shapes match the same target box,
the output cell holds the extracted text of the last such shape in
page-element order (each later matching shape's assignment overwrites the
earlier one), provided no shape can match two boxes at once — which the
second conjunct establishes for every weekday's configured coordinates. -/
theorem claim_C9_last_matching_shape_wins :
    (∀ (boxes : DayBoxes) (upBox : Box), SeparatedBoxes boxes upBox →
      ∀ slide : List PageElement,
        classifyShapes boxes upBox slide =
          ((matchTexts boxes.top slide).getLast?.getD "N/A",
           (matchTexts boxes.middle slide).getLast?.getD "N/A",
           (matchTexts boxes.bottom slide).getLast?.getD "N/A",
           (matchTexts upBox slide).getLast?.getD "N/A"))
    ∧ (∀ (day : String) (boxes : DayBoxes), boxCoordinatesDay day = some boxes →
        SeparatedBoxes boxes upcomingBox) := by
  constructor
  · intro boxes upBox hsep slide
    exact classifyFold boxes upBox hsep slide ("N/A", "N/A", "N/A", "N/A")
  · intro day boxes h
    obtain ⟨g1, g2, g3, g4, g5, g6⟩ := yGapFacts
    unfold boxCoordinatesDay at h
    split_ifs at h <;>
      · cases h
        exact separated_of_gaps _ _ g1 g2 g3 g4 g5 g6

/-! ## Claim C4: per-record failure isolation -/

/-- A list is a prefix of itself, as the Bool test. -/
lemma isPrefixOf_self (l : List Char) : l.isPrefixOf l = true := by
  induction l with
  | nil => rfl
  | cons c cs ih => simp [List.isPrefixOf, ih]

/-- The occurrence test finds a pattern standing at the end of the text. -/
lemma includesAux_suffix (pat : List Char) : ∀ pre, includesAux pat (pre ++ pat) = true := by
  intro pre
  induction pre with
  | nil =>
    cases pat with
    | nil => rfl
    | cons c cs => simp [includesAux, isPrefixOf_self]
  | cons c cs ih => simp [includesAux, ih]

/-- The per-record forEach appends exactly one produced row per non-skipped
record, in input order. -/
lemma extractLoop_eq_filterMap (openPres : String → Except String Presentation)
    (weekOfText semanaDeText : String) (currentDayBoxes : Option DayBoxes)
    (upBox : Box) (dayOfWeek : String) :
    ∀ (rows : List SourceRecord) (dataSheet : List (List Cell)),
      extractLoop openPres weekOfText semanaDeText currentDayBoxes upBox dayOfWeek rows dataSheet =
        dataSheet ++
          (rows.filterMap
            (processRecord openPres weekOfText semanaDeText currentDayBoxes upBox dayOfWeek)).map
            appendRowCells := by
  intro rows
  induction rows with
  | nil => intro dataSheet; simp [extractLoop]
  | cons r rest ih =>
    intro dataSheet
    rw [extractLoop]
    cases h : processRecord openPres weekOfText semanaDeText currentDayBoxes upBox dayOfWeek r with
    | none => simp only [h]; rw [ih]; simp [List.filterMap_cons, h]
    | some row => simp only [h]; rw [ih]; simp [List.filterMap_cons, h]

/-- C4: a failure while processing one source record (presentation cannot be
opened, zero slides, or week slide not found) yields for that record a row
whose four text fields are the literal ERROR with an errorNote containing
the failure message, and the loop still appends every other record's row in
input order. -/
theorem claim_C4_error_rows_and_batch_isolation
    (openPres : String → Except String Presentation) (weekOfText semanaDeText : String)
    (currentDayBoxes : Option DayBoxes) (upBox : Box) (dayOfWeek : String) :
    (∀ (rows : List SourceRecord) (dataSheet : List (List Cell)),
      extractLoop openPres weekOfText semanaDeText currentDayBoxes upBox dayOfWeek rows dataSheet =
        dataSheet ++
          (rows.filterMap
            (processRecord openPres weekOfText semanaDeText currentDayBoxes upBox dayOfWeek)).map
            appendRowCells)
    ∧ (∀ (r : SourceRecord) (m : String), jsTrim r.presentationId ≠ "" →
        processRecordE openPres weekOfText semanaDeText currentDayBoxes upBox dayOfWeek r =
          Except.error m →
        processRecord openPres weekOfText semanaDeText currentDayBoxes upBox dayOfWeek r =
          some [jsTrim r.teacherLastName, jsTrim r.className, dayOfWeek,
                "ERROR", "ERROR", "ERROR", "ERROR", jsTrim r.gradeLevel, "Error: " ++ m]
          ∧ jsIncludes ("Error: " ++ m) m = true)
    ∧ (∀ (r : SourceRecord) (m : String), openPres (jsTrim r.presentationId) = Except.error m →
        processRecordE openPres weekOfText semanaDeText currentDayBoxes upBox dayOfWeek r =
          Except.error m)
    ∧ (∀ r : SourceRecord, openPres (jsTrim r.presentationId) = Except.ok [] →
        processRecordE openPres weekOfText semanaDeText currentDayBoxes upBox dayOfWeek r =
          Except.error "Presentation has no slides.")
    ∧ (∀ (r : SourceRecord) (p : Presentation), openPres (jsTrim r.presentationId) = Except.ok p →
        p ≠ [] → findAgendaSlide weekOfText semanaDeText p = none →
        processRecordE openPres weekOfText semanaDeText currentDayBoxes upBox dayOfWeek r =
          Except.error (slideNotFoundMsg weekOfText semanaDeText)) := by
  refine ⟨extractLoop_eq_filterMap openPres weekOfText semanaDeText currentDayBoxes upBox dayOfWeek,
          ?_, ?_, ?_, ?_⟩
  · intro r m hne hE
    refine ⟨by simp [processRecord, hne, hE], ?_⟩
    show includesAux m.data ((String.mk _ ++ m).data) = true
    rw [String.data_append]
    exact includesAux_suffix m.data _
  · intro r m h
    simp [processRecordE, h]
  · intro r h
    simp [processRecordE, h, List.isEmpty_nil]
  · intro r p hopen hp hfind
    have hempty : p.isEmpty = false := by
      cases p with
      | nil => exact absurd rfl hp
      | cons a l => rfl
    simp [processRecordE, hopen, hempty, hfind]

/-! ## Claim C3: unsupported day aborts the run -/

/-- C3 (amended): when the requested day has no configured target-box set,
the run aborts with the unsupported-day outcome before opening any
presentation (the result does not depend on the presentation store) and
appends no data rows — but the current-day table has already been cleared
and its header row rewritten before the day check, so its prior contents are
not preserved: the table is left holding exactly the header row. -/
theorem claim_C3_unsupported_day_aborts_after_clearing
    (dayOfWeek formattedMonday : String)
    (openPres : String → Except String Presentation)
    (configRows : List SourceRecord) (prev : List (List Cell))
    (h : boxCoordinatesHasDay dayOfWeek = false) :
    extractTextForCurrentDayAgenda dayOfWeek formattedMonday openPres
        (some configRows) (some prev) =
      (ExtractOutcome.unsupportedDay, some [extractHeaderRow]) := by
  simp [extractTextForCurrentDayAgenda, h]

/-- C3 counterexample: with a Saturday run over a current-day table holding
one data row, the aborted run leaves the table holding only the header row,
so the table's contents are not left unchanged (the claim's frame condition
fails); the outcome is still the unsupported-day abort. -/
theorem claim_C3_counterexample_table_cleared :
    extractTextForCurrentDayAgenda "Saturday" "9/1/2025" (fun _ => Except.error "denied")
        (some [{ presentationId := "p1", teacherLastName := "T", className := "C",
                 gradeLevel := "6" }])
        (some [extractHeaderRow,
               appendRowCells ["T", "C", "Friday", "a", "b", "c", "d", "6"]]) =
      (ExtractOutcome.unsupportedDay, some [extractHeaderRow])
    ∧ (some [extractHeaderRow] : Option (List (List Cell))) ≠
      some [extractHeaderRow,
            appendRowCells ["T", "C", "Friday", "a", "b", "c", "d", "6"]] := by
  constructor
  · rfl
  · intro h
    have hlen := congrArg (fun o => (Option.getD o []).length) h
    simp at hlen

/-! ## Claim C1: archival is idempotent per date key -/

/-- An appended archive row passes the duplicate guard for its own date
key. -/
lemma rowHasDate_archiveRowFor (dateString : String) (row : List Cell) :
    rowHasDate dateString (archiveRowFor dateString row) = true := by
  simp [rowHasDate, archiveRowFor, strToCell, jsStrictEq]

/-- C1: running the daily archival twice against the same current-day table
state and the same (normalized) date key writes the archive rows at most
once — after a first call that archived, the second call finds the date key
in the partition's date column and returns the skip outcome, leaving the
partition exactly as the first call left it.  The `hne` hypothesis states
that an existing partition sheet has at least its data range's one row, as
the platform guarantees. -/
theorem claim_C1_archiveCurrentDayDataOnly_idempotent
    (today : JsDate) (dataSheet : Option (List (List Cell)))
    (archive : Option (List (List Cell)))
    (hne : ∀ sheet, archive = some sheet → sheet ≠ [])
    (n : Nat) (a1 : List (List Cell))
    (h : archiveCurrentDayDataOnly today dataSheet archive =
      (ArchiveOutcome.archived n, some a1)) :
    archiveCurrentDayDataOnly today dataSheet (some a1) =
      (ArchiveOutcome.skipped, some a1) := by
  rcases dataSheet with _ | values
  · exfalso
    simp [archiveCurrentDayDataOnly] at h
  · by_cases hlen : values.length ≤ 1
    · exfalso
      simp [archiveCurrentDayDataOnly, hlen] at h
    · have hguard :
          (getOrCreateArchiveSheet archive).tail.any (rowHasDate (formatJsDate today)) = false := by
        rcases Bool.eq_false_or_eq_true
            ((getOrCreateArchiveSheet archive).tail.any (rowHasDate (formatJsDate today)))
          with hg | hg
        · exfalso
          simp [archiveCurrentDayDataOnly, hlen, hg] at h
        · exact hg
      have hred : archiveCurrentDayDataOnly today (some values) archive =
          (ArchiveOutcome.archived (values.length - 1),
           some (getOrCreateArchiveSheet archive ++
             values.tail.map (archiveRowFor (formatJsDate today)))) := by
        simp [archiveCurrentDayDataOnly, hlen, hguard]
      rw [hred] at h
      have ha1 : getOrCreateArchiveSheet archive ++
          values.tail.map (archiveRowFor (formatJsDate today)) = a1 := by
        have := congrArg Prod.snd h
        simpa using this
      have hany : a1.tail.any (rowHasDate (formatJsDate today)) = true := by
        rw [← ha1]
        obtain ⟨x, xs, hx⟩ : ∃ x xs, getOrCreateArchiveSheet archive = x :: xs := by
          rcases archive with _ | sheet
          · exact ⟨_, _, rfl⟩
          · rcases sheet with _ | ⟨x, xs⟩
            · exact absurd rfl (hne [] rfl)
            · exact ⟨x, xs, rfl⟩
        rw [hx]
        have htail : ((x :: xs) ++ values.tail.map (archiveRowFor (formatJsDate today))).tail
            = xs ++ values.tail.map (archiveRowFor (formatJsDate today)) := rfl
        rw [htail, List.any_append]
        obtain ⟨r, rs, hrs⟩ : ∃ r rs, values.tail = r :: rs := by
          rcases hv : values.tail with _ | ⟨r, rs⟩
          · exfalso
            have hlt : values.length - 1 = 0 := by
              rw [← List.length_tail, hv]
              rfl
            omega
          · exact ⟨r, rs, rfl⟩
        rw [hrs]
        simp [rowHasDate_archiveRowFor]
      simp [archiveCurrentDayDataOnly, hlen, hany, getOrCreateArchiveSheet]

/-- Witness for C3: concrete Saturday run, hypotheses discharged by
evaluation. -/
theorem claim_C3_witness_saturday :
    extractTextForCurrentDayAgenda "Saturday" "1/1/2025" (fun _ => Except.error "x")
        (some []) (some [extractHeaderRow]) =
      (ExtractOutcome.unsupportedDay, some [extractHeaderRow]) :=
  claim_C3_unsupported_day_aborts_after_clearing "Saturday" "1/1/2025"
    (fun _ => Except.error "x") [] [extractHeaderRow] (by decide)

/-- Witness for C1: a concrete two-call sequence on 2025-09-01 with one data
row, hypotheses discharged by evaluation. -/
theorem claim_C1_witness_concrete :
    archiveCurrentDayDataOnly ⟨2025, 9, 1⟩
        (some [extractHeaderRow, appendRowCells ["T", "C", "Monday", "x", "y", "z", "u", "6"]])
        (some (getOrCreateArchiveSheet none ++
          [archiveRowFor "2025-09-01" (appendRowCells ["T", "C", "Monday", "x", "y", "z", "u", "6"])])) =
      (ArchiveOutcome.skipped,
       some (getOrCreateArchiveSheet none ++
         [archiveRowFor "2025-09-01" (appendRowCells ["T", "C", "Monday", "x", "y", "z", "u", "6"])])) :=
  claim_C1_archiveCurrentDayDataOnly_idempotent ⟨2025, 9, 1⟩
    (some [extractHeaderRow, appendRowCells ["T", "C", "Monday", "x", "y", "z", "u", "6"]])
    none (fun sheet hs => Option.noConfusion hs) 1
    (getOrCreateArchiveSheet none ++
      [archiveRowFor "2025-09-01" (appendRowCells ["T", "C", "Monday", "x", "y", "z", "u", "6"])])
    (by decide)

/-! ## Claim C7: date normalization is idempotent -/

lemma digitChar_isDigit (n : Nat) (h : n < 10) : (Nat.digitChar n).isDigit = true := by
  interval_cases n <;> decide

lemma natDigitsAux_lt10 (fuel n : Nat) (hf : 0 < fuel) (h : n < 10) :
    natDigitsAux fuel n = [Nat.digitChar n] := by
  cases fuel with
  | zero => omega
  | succ f => simp [natDigitsAux, h]

lemma natDec_data_one (n : Nat) (h : n < 10) : (natDec n).data = [Nat.digitChar n] := by
  show natDigitsAux (n + 1) n = _
  exact natDigitsAux_lt10 (n + 1) n (by omega) h

lemma natDec_data_two (n : Nat) (h1 : 10 ≤ n) (h2 : n < 100) :
    (natDec n).data = [Nat.digitChar (n / 10), Nat.digitChar (n % 10)] := by
  show natDigitsAux (n + 1) n = _
  obtain ⟨f, hf⟩ : ∃ f, n + 1 = f + 1 + 1 := ⟨n - 1, by omega⟩
  rw [hf, natDigitsAux, if_neg (by omega),
      natDigitsAux_lt10 (f + 1) (n / 10) (by omega) (by omega)]
  rfl

lemma natDec_data_four (n : Nat) (h1 : 1000 ≤ n) (h2 : n < 10000) :
    (natDec n).data = [Nat.digitChar (n / 10 / 10 / 10), Nat.digitChar (n / 10 / 10 % 10),
                       Nat.digitChar (n / 10 % 10), Nat.digitChar (n % 10)] := by
  show natDigitsAux (n + 1) n = _
  obtain ⟨f, hf⟩ : ∃ f, n + 1 = f + 1 + 1 + 1 + 1 := ⟨n - 3, by omega⟩
  rw [hf, natDigitsAux, if_neg (by omega), natDigitsAux, if_neg (by omega),
      natDigitsAux, if_neg (by omega),
      natDigitsAux_lt10 (f + 1) (n / 10 / 10 / 10) (by omega) (by omega)]
  rfl

/-- The two zero-padded digit characters of a month or day component. -/
lemma padStart2_intDec_digits (m : Int) (h1 : 1 ≤ m) (h2 : m ≤ 31) :
    ∃ a b : Char, (padStart2 (intDec m)).data = [a, b] ∧ a.isDigit = true ∧ b.isDigit = true := by
  have h0 : ¬ m < 0 := by omega
  rw [show intDec m = natDec m.toNat from by simp [intDec, h0]]
  by_cases hm : m.toNat < 10
  · have hd := natDec_data_one m.toNat hm
    refine ⟨'0', Nat.digitChar m.toNat, ?_, by decide, digitChar_isDigit m.toNat hm⟩
    simp [padStart2, hd, String.data_append]
  · have hd := natDec_data_two m.toNat (by omega) (by omega)
    refine ⟨Nat.digitChar (m.toNat / 10), Nat.digitChar (m.toNat % 10), ?_,
      digitChar_isDigit _ (by omega), digitChar_isDigit _ (by omega)⟩
    simp [padStart2, hd]

/-- The four digit characters of a 4-digit year. -/
lemma intDec_year_digits (y : Int) (h1 : 1000 ≤ y) (h2 : y ≤ 9999) :
    ∃ a b c d : Char, (intDec y).data = [a, b, c, d] ∧ a.isDigit = true ∧
      b.isDigit = true ∧ c.isDigit = true ∧ d.isDigit = true := by
  have h0 : ¬ y < 0 := by omega
  rw [show intDec y = natDec y.toNat from by simp [intDec, h0]]
  have hd := natDec_data_four y.toNat (by omega) (by omega)
  exact ⟨_, _, _, _, hd, digitChar_isDigit _ (by omega), digitChar_isDigit _ (by omega),
    digitChar_isDigit _ (by omega), digitChar_isDigit _ (by omega)⟩

/-- A JS `Date` whose calendar getters lie in the ranges the platform
guarantees (month 1-12, day 1-31) and whose year writes with four digits. -/
def modeledDateOk (d : JsDate) : Prop :=
  1000 ≤ d.year ∧ d.year ≤ 9999 ∧ 1 ≤ d.month ∧ d.month ≤ 12 ∧ 1 ≤ d.day ∧ d.day ≤ 31

/-- The formatted date key's exact character shape. -/
lemma formatJsDate_data (d : JsDate) (h : modeledDateOk d) :
    ∃ y1 y2 y3 y4 m1 m2 d1 d2 : Char,
      (formatJsDate d).data = [y1, y2, y3, y4, '-', m1, m2, '-', d1, d2] ∧
      y1.isDigit = true ∧ y2.isDigit = true ∧ y3.isDigit = true ∧ y4.isDigit = true ∧
      m1.isDigit = true ∧ m2.isDigit = true ∧ d1.isDigit = true ∧ d2.isDigit = true := by
  obtain ⟨hy1, hy2, hm1, hm2, hd1, hd2⟩ := h
  obtain ⟨a, b, c, e, hya, ha, hb, hc, he⟩ := intDec_year_digits d.year hy1 hy2
  obtain ⟨f, g, hmf, hf, hg⟩ := padStart2_intDec_digits d.month hm1 (by omega)
  obtain ⟨i, j, hdi, hi, hj⟩ := padStart2_intDec_digits d.day hd1 hd2
  refine ⟨a, b, c, e, f, g, i, j, ?_, ha, hb, hc, he, hf, hg, hi, hj⟩
  simp [formatJsDate, String.data_append, hya, hmf, hdi]

/-- Structure of a string accepted by the date-key pattern. -/
lemma isoFormat_shape (s : String) (h : isIsoDateFormat s = true) :
    ∃ y1 y2 y3 y4 m1 m2 d1 d2 : Char,
      s.data = [y1, y2, y3, y4, '-', m1, m2, '-', d1, d2] ∧
      y1.isDigit = true ∧ y2.isDigit = true ∧ y3.isDigit = true ∧ y4.isDigit = true ∧
      m1.isDigit = true ∧ m2.isDigit = true ∧ d1.isDigit = true ∧ d2.isDigit = true := by
  unfold isIsoDateFormat isoParts at h
  split at h
  · rename_i y1 y2 y3 y4 h1 m1 m2 h2 d1 d2 heq
    split at h
    · rename_i hc
      simp only [Bool.and_eq_true, decide_eq_true_eq] at hc
      obtain ⟨⟨⟨⟨⟨⟨⟨⟨⟨hy1, hy2⟩, hy3⟩, hy4⟩, hh1⟩, hm1⟩, hm2⟩, hh2⟩, hd1⟩, hd2⟩ := hc
      subst hh1
      subst hh2
      exact ⟨y1, y2, y3, y4, m1, m2, d1, d2, heq, hy1, hy2, hy3, hy4, hm1, hm2, hd1, hd2⟩
    · simp at h
  · simp at h

/-- A digit character is not a slash. -/
lemma ne_slash_of_isDigit (c : Char) (h : c.isDigit = true) : c ≠ '/' := by
  intro he
  rw [he] at h
  exact absurd h (by decide)

/-- The single-character occurrence test fails on a list avoiding the
character. -/
lemma includesAux_single_false (c : Char) :
    ∀ l : List Char, (∀ x ∈ l, x ≠ c) → includesAux [c] l = false := by
  intro l
  induction l with
  | nil => intro _; rfl
  | cons x xs ih =>
    intro hall
    have hx : x ≠ c := hall x (List.mem_cons_self x xs)
    have hxs := ih (fun y hy => hall y (List.mem_cons_of_mem x hy))
    simp [includesAux, List.isPrefixOf, hxs, beq_eq_false_iff_ne]
    exact fun hcx => hx hcx.symm

/-- A date-key-shaped string contains no slash, so the slash branch of the
normalizer is not taken on it. -/
lemma iso_no_slash (s : String) (h : isIsoDateFormat s = true) :
    jsIncludes s "/" = false := by
  obtain ⟨y1, y2, y3, y4, m1, m2, dd1, dd2, hdata, h1, h2, h3, h4, h5, h6, h7, h8⟩ :=
    isoFormat_shape s h
  show includesAux _ _ = false
  rw [show ("/" : String).data = ['/'] from rfl, hdata]
  apply includesAux_single_false
  intro x hx
  simp at hx
  rcases hx with rfl | rfl | rfl | rfl | rfl | rfl | rfl | rfl | rfl | rfl <;>
    first
      | exact ne_slash_of_isDigit _ (by assumption)
      | decide

/-- A valid date's formatted key matches the date-key pattern and has no
slash. -/
lemma formatJsDate_iso (d : JsDate) (h : modeledDateOk d) :
    isIsoDateFormat (formatJsDate d) = true ∧ jsIncludes (formatJsDate d) "/" = false := by
  obtain ⟨y1, y2, y3, y4, m1, m2, dd1, dd2, hdata, h1, h2, h3, h4, h5, h6, h7, h8⟩ :=
    formatJsDate_data d h
  constructor
  · simp [isIsoDateFormat, isoParts, hdata, h1, h2, h3, h4, h5, h6, h7, h8]
  · show includesAux _ _ = false
    rw [show ("/" : String).data = ['/'] from rfl, hdata]
    apply includesAux_single_false
    intro x hx
    simp at hx
    rcases hx with rfl | rfl | rfl | rfl | rfl | rfl | rfl | rfl | rfl | rfl <;>
      first
        | exact ne_slash_of_isDigit _ (by assumption)
        | decide

/-- A normalizer output hits the unchanged-return branch on re-entry. -/
lemma normalize_str_of_iso (api : JsDateApi) (s : String) (h : isIsoDateFormat s = true) :
    normalizeDateToString api (JsVal.str s) = some s := by
  simp [normalizeDateToString, iso_no_slash s h, h]

/-- Every date the platform hands the normalizer for this input is in the
modelled valid range (month 1-12, day 1-31, four-digit year). -/
def apiDatesOk (api : JsDateApi) (v : JsVal) : Prop :=
  match v with
  | JsVal.date d => modeledDateOk d
  | JsVal.str s => ∀ d, api.parseStr s = some d → modeledDateOk d
  | JsVal.num n => ∀ d, api.fromMs n = some d → modeledDateOk d
  | JsVal.other => True

/-- C7 counterexample: the unrestricted idempotence claim is false.  A date
with year 50 normalizes successfully to `"50-03-04"`, which does not match
`^\d{4}-\d{2}-\d{2}$`; re-normalizing that output falls through to the
generic parse, which can fail, yielding `null` instead of the same string. -/
theorem claim_C7_counterexample_two_digit_year :
    normalizeDateToString { parseStr := fun _ => none, fromMs := fun _ => none }
        (JsVal.date ⟨50, 3, 4⟩) = some "50-03-04"
    ∧ normalizeDateToString { parseStr := fun _ => none, fromMs := fun _ => none }
        (JsVal.str "50-03-04") = none := by
  exact ⟨by decide, by decide⟩

/-- C7 (amended): for every platform date parser, normalization is
idempotent on every input on which it succeeds whose underlying date has a
four-digit year (together with the platform getter ranges, month 1-12 and
day 1-31): the emitted key then matches `^\d{4}-\d{2}-\d{2}$` and
re-normalization returns it unchanged.  (For years outside 1000-9999 the
key falls outside the pattern and re-normalization can fail.)  A string
already matching the pattern is returned unchanged; and every input whose
generic parse fails — a string not matching the pattern whose parse fails,
a number whose conversion fails, or a non-date, non-string, non-number
value — yields `none` rather than an exception. -/
theorem claim_C7_normalizeDateToString_idempotent (api : JsDateApi) :
    (∀ (v : JsVal) (r : String), apiDatesOk api v →
      normalizeDateToString api v = some r →
      normalizeDateToString api (JsVal.str r) = some r)
    ∧ (∀ s : String, isIsoDateFormat s = true →
        normalizeDateToString api (JsVal.str s) = some s)
    ∧ (∀ s : String, isIsoDateFormat s = false → api.parseStr s = none →
        normalizeDateToString api (JsVal.str s) = none)
    ∧ (∀ n : Int, api.fromMs n = none → normalizeDateToString api (JsVal.num n) = none)
    ∧ normalizeDateToString api JsVal.other = none := by
  refine ⟨?_, fun s h => normalize_str_of_iso api s h, ?_, ?_, rfl⟩
  · intro v r hok hr
    cases v with
    | date d =>
      simp only [normalizeDateToString, Option.some.injEq] at hr
      subst hr
      exact normalize_str_of_iso api _ (formatJsDate_iso d hok).1
    | str s =>
      simp only [normalizeDateToString] at hr
      by_cases hs1 : jsIncludes s "/" = true
      · rw [if_pos hs1] at hr
        obtain ⟨d, hd, hfd⟩ := Option.map_eq_some'.mp hr
        subst hfd
        exact normalize_str_of_iso api _ (formatJsDate_iso d (hok d hd)).1
      · rw [if_neg hs1] at hr
        by_cases hs2 : isIsoDateFormat s = true
        · rw [if_pos hs2] at hr
          obtain rfl : s = r := by simpa using hr
          exact normalize_str_of_iso api s hs2
        · rw [if_neg hs2] at hr
          obtain ⟨d, hd, hfd⟩ := Option.map_eq_some'.mp hr
          subst hfd
          exact normalize_str_of_iso api _ (formatJsDate_iso d (hok d hd)).1
    | num n =>
      simp only [normalizeDateToString] at hr
      obtain ⟨d, hd, hfd⟩ := Option.map_eq_some'.mp hr
      subst hfd
      exact normalize_str_of_iso api _ (formatJsDate_iso d (hok d hd)).1
    | other => simp [normalizeDateToString] at hr
  · intro s hiso hparse
    by_cases hinc : jsIncludes s "/" = true
    · simp [normalizeDateToString, hinc, hparse]
    · simp [normalizeDateToString, hinc, hiso, hparse]
  · intro n hn
    simp [normalizeDateToString, hn]

/-! ## Claim C8: listing archived dates -/

lemma charListLe_total : ∀ a b : List Char, (charListLe a b || charListLe b a) = true := by
  intro a
  induction a with
  | nil => intro b; simp [charListLe]
  | cons x xs ih =>
    intro b
    cases b with
    | nil => simp [charListLe]
    | cons y ys =>
      by_cases hxy : x < y
      · simp [charListLe, hxy]
      · by_cases heq : x = y
        · subst heq
          simp [charListLe, hxy, ih ys]
        · have hyx : y < x := by
            rcases lt_trichotomy x y with h | h | h
            · exact absurd h hxy
            · exact absurd h heq
            · exact h
          have hne : y ≠ x := fun h => heq h.symm
          simp [charListLe, hxy, heq, hyx, hne]

lemma charListLe_trans : ∀ a b c : List Char,
    charListLe a b = true → charListLe b c = true → charListLe a c = true := by
  intro a
  induction a with
  | nil => intro b c _ _; simp [charListLe]
  | cons x xs ih =>
    intro b c hab hbc
    cases b with
    | nil => simp [charListLe] at hab
    | cons y ys =>
      cases c with
      | nil => simp [charListLe] at hbc
      | cons z zs =>
        by_cases hxy : x < y
        · by_cases hyz : y < z
          · have hxz : x < z := lt_trans hxy hyz
            simp [charListLe, hxz]
          · by_cases heyz : y = z
            · subst heyz
              simp [charListLe, hxy]
            · simp [charListLe, hyz, heyz] at hbc
        · by_cases hexy : x = y
          · subst hexy
            simp [charListLe, hxy] at hab
            by_cases hyz : x < z
            · simp [charListLe, hyz]
            · by_cases heyz : x = z
              · subst heyz
                simp [charListLe, hyz] at hbc ⊢
                exact ih ys zs hab hbc
              · simp [charListLe, hyz, heyz] at hbc
          · simp [charListLe, hxy, hexy] at hab

lemma jsStrLe_trans (a b c : String) :
    jsStrLe a b = true → jsStrLe b c = true → jsStrLe a c = true :=
  charListLe_trans a.data b.data c.data

lemma jsStrLe_total (a b : String) : (jsStrLe a b || jsStrLe b a) = true :=
  charListLe_total a.data b.data

lemma jsSetAdd_nodup (acc : List String) (x : String) (h : acc.Nodup) :
    (jsSetAdd acc x).Nodup := by
  unfold jsSetAdd
  split
  · exact h
  · rename_i hnm
    simp [List.nodup_append, h, hnm]

lemma mem_jsSetAdd (acc : List String) (x y : String) :
    y ∈ jsSetAdd acc x ↔ y ∈ acc ∨ y = x := by
  unfold jsSetAdd
  split
  · rename_i hm
    constructor
    · exact Or.inl
    · rintro (h | rfl)
      · exact h
      · exact hm
  · simp [List.mem_append]

lemma sheetArchiveDates_nodup (api : JsDateApi) (sheet : NamedSheet) :
    ∀ acc, acc.Nodup → (sheetArchiveDates api sheet acc).Nodup := by
  unfold sheetArchiveDates
  generalize sheet.vals.tail = rows
  induction rows with
  | nil => intro acc h; simpa using h
  | cons row rest ih =>
    intro acc h
    rw [List.foldl_cons]
    apply ih
    cases hrow : row.head? with
    | none => simpa [hrow] using h
    | some c =>
      cases hn : normalizeDateToString api c.value with
      | none => simpa [hrow, hn] using h
      | some nd => simpa [hrow, hn] using jsSetAdd_nodup acc nd h

lemma mem_sheetArchiveDates (api : JsDateApi) (sheet : NamedSheet) :
    ∀ acc y, y ∈ sheetArchiveDates api sheet acc ↔
      y ∈ acc ∨ ∃ row ∈ sheet.vals.tail, ∃ c, row.head? = some c ∧
        normalizeDateToString api c.value = some y := by
  unfold sheetArchiveDates
  generalize sheet.vals.tail = rows
  induction rows with
  | nil => intro acc y; simp
  | cons row rest ih =>
    intro acc y
    rw [List.foldl_cons, ih]
    cases hrow : row.head? with
    | none =>
      simp only [hrow]
      constructor
      · rintro (h | h)
        · exact Or.inl h
        · obtain ⟨r, hr, hc⟩ := h
          exact Or.inr ⟨r, List.mem_cons_of_mem row hr, hc⟩
      · rintro (h | h)
        · exact Or.inl h
        · obtain ⟨r, hr, c, hc, hn⟩ := h
          rcases List.mem_cons.mp hr with rfl | hr2
          · rw [hrow] at hc
            cases hc
          · exact Or.inr ⟨r, hr2, c, hc, hn⟩
    | some c =>
      cases hn : normalizeDateToString api c.value with
      | none =>
        simp only [hrow, hn]
        constructor
        · rintro (h | h)
          · exact Or.inl h
          · obtain ⟨r, hr, hc⟩ := h
            exact Or.inr ⟨r, List.mem_cons_of_mem row hr, hc⟩
        · rintro (h | h)
          · exact Or.inl h
          · obtain ⟨r, hr, c2, hc, hn2⟩ := h
            rcases List.mem_cons.mp hr with rfl | hr2
            · rw [hrow] at hc
              cases hc
              rw [hn] at hn2
              cases hn2
            · exact Or.inr ⟨r, hr2, c2, hc, hn2⟩
      | some nd =>
        simp only [hrow, hn, mem_jsSetAdd]
        constructor
        · rintro ((h | rfl) | h)
          · exact Or.inl h
          · exact Or.inr ⟨row, List.mem_cons_self row rest, c, hrow, hn⟩
          · obtain ⟨r, hr, hc⟩ := h
            exact Or.inr ⟨r, List.mem_cons_of_mem row hr, hc⟩
        · rintro (h | h)
          · exact Or.inl (Or.inl h)
          · obtain ⟨r, hr, c2, hc, hn2⟩ := h
            rcases List.mem_cons.mp hr with rfl | hr2
            · rw [hrow] at hc
              cases hc
              rw [hn] at hn2
              cases hn2
              exact Or.inl (Or.inr rfl)
            · exact Or.inr ⟨r, hr2, c2, hc, hn2⟩

lemma collectDates_nodup (api : JsDateApi) (sheets : List NamedSheet) :
    ∀ acc, acc.Nodup →
      (sheets.foldl (fun acc sheet =>
        if jsStartsWith sheet.name "Archive_" then sheetArchiveDates api sheet acc
        else acc) acc).Nodup := by
  induction sheets with
  | nil => intro acc h; simpa using h
  | cons sheet rest ih =>
    intro acc h
    rw [List.foldl_cons]
    apply ih
    by_cases hs : jsStartsWith sheet.name "Archive_" = true
    · simpa [hs] using sheetArchiveDates_nodup api sheet acc h
    · simpa [hs] using h

lemma mem_collectDates (api : JsDateApi) (sheets : List NamedSheet) :
    ∀ acc y,
      (y ∈ sheets.foldl (fun acc sheet =>
        if jsStartsWith sheet.name "Archive_" then sheetArchiveDates api sheet acc
        else acc) acc) ↔
      y ∈ acc ∨ ∃ sheet ∈ sheets, jsStartsWith sheet.name "Archive_" = true ∧
        ∃ row ∈ sheet.vals.tail, ∃ c, row.head? = some c ∧
          normalizeDateToString api c.value = some y := by
  induction sheets with
  | nil => intro acc y; simp
  | cons sheet rest ih =>
    intro acc y
    rw [List.foldl_cons, ih]
    by_cases hs : jsStartsWith sheet.name "Archive_" = true
    · rw [if_pos hs, mem_sheetArchiveDates]
      constructor
      · rintro ((h | h) | h)
        · exact Or.inl h
        · obtain ⟨r, hr, hc⟩ := h
          exact Or.inr ⟨sheet, List.mem_cons_self sheet rest, hs, r, hr, hc⟩
        · obtain ⟨sh, hsh, hc⟩ := h
          exact Or.inr ⟨sh, List.mem_cons_of_mem sheet hsh, hc⟩
      · rintro (h | h)
        · exact Or.inl (Or.inl h)
        · obtain ⟨sh, hsh, hpre, hc⟩ := h
          rcases List.mem_cons.mp hsh with rfl | hsh2
          · exact Or.inl (Or.inr hc)
          · exact Or.inr ⟨sh, hsh2, hpre, hc⟩
    · rw [if_neg hs]
      constructor
      · rintro (h | h)
        · exact Or.inl h
        · obtain ⟨sh, hsh, hc⟩ := h
          exact Or.inr ⟨sh, List.mem_cons_of_mem sheet hsh, hc⟩
      · rintro (h | h)
        · exact Or.inl h
        · obtain ⟨sh, hsh, hpre, hc⟩ := h
          rcases List.mem_cons.mp hsh with rfl | hsh2
          · exact absurd hpre hs
          · exact Or.inr ⟨sh, hsh2, hpre, hc⟩

/-- C8: the list of available archive dates holds exactly the normalized
date values found in the first column of the data rows of the
`Archive_`-prefixed sheets (unparseable cells excluded), each distinct value
exactly once, sorted ascending by the string order. -/
theorem claim_C8_getAvailableArchiveDates_sorted_dedup (api : JsDateApi)
    (sheets : List NamedSheet) :
    List.Pairwise (fun a b => jsStrLe a b = true) (getAvailableArchiveDates api sheets)
    ∧ (getAvailableArchiveDates api sheets).Nodup
    ∧ (∀ y, y ∈ getAvailableArchiveDates api sheets ↔
        ∃ sheet ∈ sheets, jsStartsWith sheet.name "Archive_" = true ∧
          ∃ row ∈ sheet.vals.tail, ∃ c, row.head? = some c ∧
            normalizeDateToString api c.value = some y) := by
  refine ⟨?_, ?_, ?_⟩
  · exact List.sorted_mergeSort
      (fun a b c => jsStrLe_trans a b c) (fun a b => jsStrLe_total a b) _
  · exact ((List.mergeSort_perm _ jsStrLe).nodup_iff).mpr
      (collectDates_nodup api sheets [] List.nodup_nil)
  · intro y
    rw [show getAvailableArchiveDates api sheets =
        (sheets.foldl (fun acc sheet =>
          if jsStartsWith sheet.name "Archive_" then sheetArchiveDates api sheet acc
          else acc) []).mergeSort jsStrLe from rfl]
    rw [List.mem_mergeSort, mem_collectDates]
    simp

/-! ## Claim C10: tagged results of the archived-data query -/

/-- C10: a well-formed `YYYY-MM-DD` date key whose monthly partition sheet
does not exist yields a success result with an empty payload; a date
argument not matching the pattern yields a tagged error result carrying the
invalid-format message; and the query always returns one of the two tagged
results (the catch turns every thrown message into an error result — no
exception crosses the boundary). -/
theorem claim_C10_getArchivedDataForDate_tagged_results (api : JsDateApi)
    (sheets : List NamedSheet) (dateString : String) :
    (∀ year month day, isoParts dateString = some (year, month, day) →
      sheets.find? (fun sheet => sheet.name == "Archive_" ++ year ++ "_" ++ month) = none →
      getArchivedDataForDate api sheets dateString = QueryResult.payload [])
    ∧ (isoParts dateString = none →
      getArchivedDataForDate api sheets dateString =
        QueryResult.error
          ("Failed to fetch archived data: Invalid date format. Expected YYYY-MM-DD, got: "
            ++ dateString))
    ∧ ((∃ rows, getArchivedDataForDate api sheets dateString = QueryResult.payload rows)
       ∨ (∃ m, getArchivedDataForDate api sheets dateString = QueryResult.error m)) := by
  refine ⟨?_, ?_, ?_⟩
  · intro year month day hiso hfind
    simp [getArchivedDataForDate, getArchivedDataForDateAux, hiso, hfind]
  · intro h
    simp [getArchivedDataForDate, getArchivedDataForDateAux, h]
    rw [← String.append_assoc]
    congr 1
  · cases haux : getArchivedDataForDateAux api sheets dateString with
    | ok rows => exact Or.inl ⟨rows, by simp [getArchivedDataForDate, haux]⟩
    | error m =>
      exact Or.inr ⟨"Failed to fetch archived data: " ++ m,
        by simp [getArchivedDataForDate, haux]⟩
